import Mathlib

/-!
# git-commit-mcp: the tool handlers of `main.go`

A shallow embedding of the handlers `GitStatus`, `GenerateCommitMessage`,
`GitCommit` and `GitLog` of `src/main.go`, and the properties of the
specification that concern them.

* A Go `string` is a sequence of bytes (`GoString`); `len`, `s[:2]` and `s[3:]`
  are `List.length`, `List.take 2` and `List.drop 3`.
* The literals of the source are written as Lean string literals and turned
  into their UTF-8 bytes by `utf8`.
* `strings.Builder` is the string accumulated so far; `WriteString` appends.
* `fmt.Sprintf` with `%s` verbs is concatenation.
* `exec.Cmd` is run by an injected executor `σ → Cmd → CmdResult × σ`, where
  `σ` is the state of the outside world (file system, repository).
-/

namespace GitCommitMcp

/-! ## Go strings and the library functions the handlers call -/

/-- A Go string: an immutable sequence of bytes. -/
abbrev GoString := List UInt8

/-- The UTF-8 bytes of a literal of the source. -/
def utf8 (s : String) : GoString := s.toUTF8.data.toList

/-- Go `strings.HasPrefix s p`. -/
def HasPrefix : GoString → GoString → Bool
  | _, [] => true
  | [], _ :: _ => false
  | b :: s, c :: p => b == c && HasPrefix s p

/-- Go `strings.Contains s substr`: `substr` occurs at some offset of `s`. -/
def Contains : GoString → GoString → Bool
  | [], substr => HasPrefix [] substr
  | b :: s, substr => HasPrefix (b :: s) substr || Contains s substr

/-- Go `strings.Split s "\n"`: the pieces of `s` between the newline bytes;
a string without newline (also the empty one) gives one piece. -/
def SplitLines : GoString → List GoString
  | [] => [[]]
  | b :: s =>
    if b = 0x0A then [] :: SplitLines s
    else
      match SplitLines s with
      | [] => [[b]]
      | l :: ls => (b :: l) :: ls

/-- The runes for which Go `unicode.IsSpace` holds: the six ASCII ones,
U+0085, U+00A0 and the code points with the `White_Space` property. -/
def spaceRunes : List Char :=
  ['\t', '\n', '\x0b', '\x0c', '\r', ' ', '\u0085', '\u00a0', '\u1680',
   '\u2000', '\u2001', '\u2002', '\u2003', '\u2004', '\u2005', '\u2006',
   '\u2007', '\u2008', '\u2009', '\u200a', '\u2028', '\u2029', '\u202f',
   '\u205f', '\u3000']

/-- The UTF-8 encodings of `spaceRunes`. Decoding a rune at some offset of a
string gives a space rune exactly when the bytes at that offset start with one
of these encodings (an invalid sequence decodes to U+FFFD, which is no space),
and decoding the last rune of a string gives a space rune exactly when the
string ends with one of them. -/
def spaceSeqs : List GoString := spaceRunes.map fun c => utf8 (String.singleton c)

/-- Length in bytes of the space rune that `s` starts with according to the
table `encs`; `0` when it starts with none. -/
def spaceLen (encs : List GoString) (s : GoString) : Nat :=
  match encs.find? fun e => HasPrefix s e with
  | some e => e.length
  | none => 0

/-- Drops the leading space runes of a string; the number counts the bytes of
the space rune under the cursor that are still to be dropped. -/
def trimAux (encs : List GoString) : Nat → GoString → GoString
  | _, [] => []
  | k + 1, _ :: t => trimAux encs k t
  | 0, b :: t =>
    match spaceLen encs (b :: t) with
    | 0 => b :: t
    | k + 1 => trimAux encs k t

/-- Go `strings.TrimLeftFunc s unicode.IsSpace`. -/
def TrimLeftSpace (s : GoString) : GoString := trimAux spaceSeqs 0 s

/-- Go `strings.TrimRightFunc s unicode.IsSpace`: the same walk from the end
of the string, over the reversed encodings. -/
def TrimRightSpace (s : GoString) : GoString :=
  (trimAux (spaceSeqs.map List.reverse) 0 s.reverse).reverse

/-- Go `strings.TrimSpace`: leading space runes removed, then trailing ones. -/
def TrimSpace (s : GoString) : GoString := TrimRightSpace (TrimLeftSpace s)

/-- Go `fmt.Sprintf("%d", n)` for an integer: decimal digits, with a minus
sign for a negative number. -/
def fmtD : Int → GoString
  | Int.ofNat n => (Nat.toDigits 10 n).map fun c => c.toNat.toUInt8
  | Int.negSucc n => 0x2D :: (Nat.toDigits 10 (n + 1)).map fun c => c.toNat.toUInt8

/-! ## Data model -/

/-- The struct `CommitType` of the source. -/
structure CommitType where
  Emoji : GoString
  Name : GoString
  Desc : GoString
  deriving DecidableEq

/-- The catalog `CommitTypes` of the source. -/
def CommitTypes : List CommitType :=
  [ { Emoji := utf8 "✨", Name := utf8 "feat", Desc := utf8 "新增功能" },
    { Emoji := utf8 "🐛", Name := utf8 "fix", Desc := utf8 "修复 Bug" },
    { Emoji := utf8 "📝", Name := utf8 "docs", Desc := utf8 "文档变更" },
    { Emoji := utf8 "💄", Name := utf8 "style", Desc := utf8 "代码格式" },
    { Emoji := utf8 "♻️", Name := utf8 "refactor", Desc := utf8 "重构代码" },
    { Emoji := utf8 "⚡️", Name := utf8 "perf", Desc := utf8 "性能优化" },
    { Emoji := utf8 "✅", Name := utf8 "test", Desc := utf8 "增加测试" },
    { Emoji := utf8 "🔧", Name := utf8 "chore", Desc := utf8 "构建/工具变动" },
    { Emoji := utf8 "📦", Name := utf8 "build", Desc := utf8 "构建系统变动" },
    { Emoji := utf8 "👷", Name := utf8 "ci", Desc := utf8 "CI 配置变动" },
    { Emoji := utf8 "⏪", Name := utf8 "revert", Desc := utf8 "回退代码" },
    { Emoji := utf8 "🎉", Name := utf8 "init", Desc := utf8 "项目初始化" },
    { Emoji := utf8 "🎨", Name := utf8 "ui", Desc := utf8 "更新 UI 样式" },
    { Emoji := utf8 "⚙️", Name := utf8 "config", Desc := utf8 "配置文件修改" },
    { Emoji := utf8 "🔀", Name := utf8 "merge", Desc := utf8 "合并分支" } ]

/-- The struct `PathParam`. -/
structure PathParam where
  Path : GoString

/-- The struct `CommitMessageParam`. -/
structure CommitMessageParam where
  CommitType : GoString
  ShortDesc : GoString
  Details : List GoString

/-- The struct `GitCommitParam`. -/
structure GitCommitParam where
  Message : GoString
  Path : GoString

/-- The struct `GitLogParam`; `Count` is a nullable `int32`. -/
structure GitLogParam where
  Count : Option Int
  Path : GoString

/-- What a handler returns: the text of the single `TextContent` of its
`CallToolResult`, the single field of its output struct, and its `error`
(`none` for `nil`). -/
structure ToolResult where
  Text : GoString
  Out : GoString
  Err : Option GoString
  deriving DecidableEq

/-- An `exec.Cmd` as the handlers build it: working directory `Dir`, program
name and arguments. -/
structure Cmd where
  Dir : GoString
  Name : GoString
  Args : List GoString
  deriving DecidableEq

/-- What running a command gives: the captured standard output (`Output()`),
the captured standard output and standard error together (`CombinedOutput()`),
and the error (`none` when the command ran and exited with status 0,
otherwise the text of the error). -/
structure CmdResult where
  Stdout : GoString
  Combined : GoString
  Err : Option GoString
  deriving DecidableEq

/-- The injected process runner over a world state `σ`. -/
abbrev Executor (σ : Type) := σ → Cmd → CmdResult × σ

/-- An executor that also records, in order, the commands it is asked to run. -/
def traced {σ : Type} (run : Executor σ) : Executor (σ × List Cmd) :=
  fun st c => ((run st.1 c).1, ((run st.1 c).2, st.2 ++ [c]))

/-- What `os.Stat` reports for an entry that exists: `IsDir()` and the
permission bits `Mode().Perm()`. -/
structure FileInfo where
  IsDir : Bool
  Perm : Nat

/-! ## The handlers -/

/-- The function `isGitRepo`; `stat` is `os.Stat` (`none` when it returns an
error) and `join` is `filepath.Join`. -/
def isGitRepo (stat : GoString → Option FileInfo) (join : GoString → GoString → GoString)
    (path : GoString) : Bool :=
  let gitDir := join path (utf8 ".git")
  match stat gitDir with
  | some st => st.IsDir || (st.Perm &&& 0o111 != 0)
  | none => false

/-- The `switch` of `GitStatus` over the status code: the icon and the label
of the first case whose condition holds, `none` for the `default` case. -/
def classify (status : GoString) : Option (GoString × GoString) :=
  if Contains status (utf8 "??") then some (utf8 "➕", utf8 "新增")
  else if Contains status (utf8 "M ") then some (utf8 "📝", utf8 "修改")
  else if Contains status (utf8 " M") then some (utf8 "📝", utf8 "修改")
  else if Contains status (utf8 "D ") then some (utf8 "➖", utf8 "删除")
  else if Contains status (utf8 " D") then some (utf8 "➖", utf8 "删除")
  else if Contains status (utf8 "A ") then some (utf8 "➕", utf8 "新增")
  else none

/-- One iteration of the loop of `GitStatus` over `lines`: `result` is the
builder before the iteration, the value is the builder after it (`continue`
leaves it as it was). -/
def statusStep (result line : GoString) : GoString :=
  if line.length < 3 then result
  else
    let status := line.take 2
    let path := line.drop 3
    match classify status with
    | none => result
    | some (icon, statusStr) =>
      result ++ (icon ++ utf8 " " ++ statusStr ++ utf8 " " ++ path ++ utf8 "\n")

/-- The status formatter: `GitStatus` from the point where the output of
`git status --porcelain` has been captured (`output`) to its return. -/
def formatStatus (output : GoString) : ToolResult :=
  let outputStr := TrimSpace output
  if outputStr = [] then
    { Text := utf8 "✅ 工作区干净，没有变更", Out := utf8 "Clean", Err := none }
  else
    let lines := SplitLines outputStr
    let result := lines.foldl statusStep (utf8 "📊 变更导图：\n\n")
    { Text := result, Out := result, Err := none }

/-- The handler `GitStatus`. -/
def GitStatus {σ : Type} (stat : σ → GoString → Option FileInfo)
    (join : GoString → GoString → GoString) (run : Executor σ) (w : σ)
    (param : PathParam) : ToolResult × σ :=
  let repoPath := if param.Path = [] then utf8 "." else param.Path
  if !isGitRepo (stat w) join repoPath then
    ({ Text := utf8 "❌ 当前目录不是 Git 仓库", Out := utf8 "Not a git repository",
       Err := none }, w)
  else
    let r := run w { Dir := repoPath, Name := utf8 "git",
                     Args := [utf8 "status", utf8 "--porcelain"] }
    match r.1.Err with
    | some err =>
      ({ Text := utf8 "❌ 获取状态失败: " ++ err, Out := utf8 "Error", Err := none }, r.2)
    | none => (formatStatus r.1.Stdout, r.2)

/-- The first loop of `GenerateCommitMessage`: the first entry of the catalog
whose `Name` is the requested type, `none` while `typeInfo` stays `nil`. -/
def findType (commitType : GoString) : List CommitType → Option CommitType
  | [] => none
  | t :: ts => if t.Name = commitType then some t else findType commitType ts

/-- The second loop of `GenerateCommitMessage`, from index `i` on: `details`
is the builder so far. -/
def writeDetails : Nat → List GoString → GoString → GoString
  | _, [], details => details
  | i, d :: ds, details =>
    writeDetails (i + 1) ds
      ((if i > 0 then details ++ utf8 "\n" else details) ++ (utf8 "- " ++ d))

/-- The handler `GenerateCommitMessage`. -/
def GenerateCommitMessage (param : CommitMessageParam) : ToolResult :=
  let typeInfo :=
    match findType param.CommitType CommitTypes with
    | some t => t
    | none => CommitTypes.get ⟨0, by decide⟩
  let details := writeDetails 0 param.Details []
  let commitMsg := typeInfo.Emoji ++ utf8 " " ++ typeInfo.Name ++ utf8 ": " ++ param.ShortDesc
    ++ utf8 "\n\n详细描述：\n" ++ details
  let result := utf8 "📝 生成的提交信息：\n\n\x60\x60\x60\n" ++ commitMsg ++ utf8 "\n\x60\x60\x60"
  { Text := result, Out := commitMsg, Err := none }

/-- The handler `GitCommit`. -/
def GitCommit {σ : Type} (run : Executor σ) (w : σ) (param : GitCommitParam) :
    ToolResult × σ :=
  let repoPath := if param.Path = [] then utf8 "." else param.Path
  let add := run w { Dir := repoPath, Name := utf8 "git", Args := [utf8 "add", utf8 "."] }
  match add.1.Err with
  | some _ =>
    ({ Text := utf8 "❌ git add 失败: " ++ add.1.Combined, Out := utf8 "Failed", Err := none },
      add.2)
  | none =>
    let commit := run add.2 { Dir := repoPath, Name := utf8 "git",
                              Args := [utf8 "commit", utf8 "-m", param.Message] }
    match commit.1.Err with
    | some _ =>
      ({ Text := utf8 "❌ git commit 失败: " ++ commit.1.Combined, Out := utf8 "Failed",
         Err := none }, commit.2)
    | none =>
      ({ Text := utf8 "✅ 提交成功！\n\n💡 如需推送，请执行: git push", Out := utf8 "Success",
         Err := none }, commit.2)

/-- The handler `GitLog`. -/
def GitLog {σ : Type} (run : Executor σ) (w : σ) (param : GitLogParam) : ToolResult × σ :=
  let repoPath := if param.Path = [] then utf8 "." else param.Path
  let n :=
    match param.Count with
    | some count => fmtD count
    | none => utf8 "10"
  let r := run w { Dir := repoPath, Name := utf8 "git",
                   Args := [utf8 "log", utf8 "--oneline", utf8 "-n", n] }
  match r.1.Err with
  | some err =>
    ({ Text := utf8 "❌ 获取日志失败: " ++ err, Out := utf8 "Error", Err := none }, r.2)
  | none =>
    let result := utf8 "📜 最近 " ++ n ++ utf8 " 条提交：\n\n" ++ r.1.Stdout
    ({ Text := result, Out := result, Err := none }, r.2)

/-! ## Definitions used to state the properties -/

/-- The six ASCII space bytes. -/
def asciiSpace (b : UInt8) : Bool :=
  b == 0x09 || b == 0x0A || b == 0x0B || b == 0x0C || b == 0x0D || b == 0x20

/-- The header that opens the itemized block. -/
def statusHeader : GoString := utf8 "📊 变更导图：\n\n"

/-- The result for a clean working tree. -/
def cleanResult : ToolResult :=
  { Text := utf8 "✅ 工作区干净，没有变更", Out := utf8 "Clean", Err := none }

/-- A line is recognised when it has at least 3 bytes and the switch has a
case for its first two bytes. -/
def recognised (line : GoString) : Bool :=
  decide (3 ≤ line.length) && (classify (line.take 2)).isSome

/-- The item emitted for a recognised line: icon, label, and the bytes of
the line from offset 3 on, ended by a newline. -/
def itemOf (line : GoString) : GoString :=
  match classify (line.take 2) with
  | some (icon, statusStr) =>
    icon ++ utf8 " " ++ statusStr ++ utf8 " " ++ line.drop 3 ++ utf8 "\n"
  | none => []

/-- The text of an item without its final newline. -/
def itemText (line : GoString) : GoString :=
  match classify (line.take 2) with
  | some (icon, statusStr) => icon ++ utf8 " " ++ statusStr ++ utf8 " " ++ line.drop 3
  | none => []

/-- The working directory a handler uses for the `path` parameter. -/
def workDir (path : GoString) : GoString := if path = [] then utf8 "." else path

/-- The command `git add .` in the working directory of `param`. -/
def addCmd (param : GitCommitParam) : Cmd :=
  { Dir := workDir param.Path, Name := utf8 "git", Args := [utf8 "add", utf8 "."] }

/-- The command `git commit -m <message>` in the working directory of `param`. -/
def commitCmd (param : GitCommitParam) : Cmd :=
  { Dir := workDir param.Path, Name := utf8 "git",
    Args := [utf8 "commit", utf8 "-m", param.Message] }

/-- The command `git log --oneline -n <n>` in the working directory for `path`. -/
def logCmd (path n : GoString) : Cmd :=
  { Dir := workDir path, Name := utf8 "git",
    Args := [utf8 "log", utf8 "--oneline", utf8 "-n", n] }

/-- The bullet block of the specification: every detail behind a dash and a
blank, the bullets joined by single newlines. -/
def bulletBlock (details : List GoString) : GoString :=
  List.intercalate (utf8 "\n") (details.map fun d => utf8 "- " ++ d)

/-- An executor without state under which every command fails the way `git`
fails outside a repository. -/
def failingRun : Executor Unit := fun _ _ =>
  ({ Stdout := [], Combined := utf8 "fatal: not a git repository\n",
     Err := some (utf8 "exit status 128") }, ())

/-- An executor without state for a repository with three commits: every
command succeeds and prints the three one-line entries. -/
def threeCommits : Executor Unit := fun _ _ =>
  ({ Stdout := utf8 "c3c3c3c third\nb2b2b2b second\na1a1a1a first\n",
     Combined := utf8 "c3c3c3c third\nb2b2b2b second\na1a1a1a first\n", Err := none }, ())

/-! ## Properties -/

/-! ### The library functions -/

theorem utf8_newline : utf8 "\n" = [0x0A] := by decide

theorem Contains_pair (a b c d : UInt8) :
    Contains [a, b] [c, d] = (a == c && b == d) := by
  simp [Contains, HasPrefix]

theorem spaceSeqs_eq : spaceSeqs =
    [[9], [10], [11], [12], [13], [32], [194, 133], [194, 160], [225, 154, 128],
     [226, 128, 128], [226, 128, 129], [226, 128, 130], [226, 128, 131], [226, 128, 132],
     [226, 128, 133], [226, 128, 134], [226, 128, 135], [226, 128, 136], [226, 128, 137],
     [226, 128, 138], [226, 128, 168], [226, 128, 169], [226, 128, 175], [226, 129, 159],
     [227, 128, 128]] := by decide

theorem spaceLen_asciiSpace (b : UInt8) (t : GoString) (h : asciiSpace b = true) :
    spaceLen spaceSeqs (b :: t) = 1 := by
  simp only [asciiSpace, Bool.or_eq_true, beq_iff_eq] at h
  unfold spaceLen
  rw [spaceSeqs_eq]
  rcases h with ((((h | h) | h) | h) | h) | h <;> subst h <;>
    simp [List.find?, HasPrefix]

theorem trimAux_asciiSpace (s : GoString) (h : ∀ b ∈ s, asciiSpace b = true) :
    trimAux spaceSeqs 0 s = [] := by
  induction s with
  | nil => rfl
  | cons b t ih =>
    have hb := spaceLen_asciiSpace b t (h b (List.mem_cons_self _ _))
    have ht := ih fun c hc => h c (List.mem_cons_of_mem _ hc)
    simp only [trimAux, hb]
    exact ht

theorem TrimSpace_asciiSpace (s : GoString) (h : ∀ b ∈ s, asciiSpace b = true) :
    TrimSpace s = [] := by
  simp [TrimSpace, TrimLeftSpace, TrimRightSpace, trimAux_asciiSpace s h, trimAux]

theorem trimAux_suffix (encs : List GoString) (k : Nat) (s : GoString) :
    trimAux encs k s <:+ s := by
  induction s generalizing k with
  | nil => simp [trimAux]
  | cons b t ih =>
    cases k with
    | succ k =>
      rw [trimAux]
      exact (ih k).trans (List.suffix_cons b t)
    | zero =>
      rw [trimAux]
      split
      · exact List.suffix_refl _
      · exact (ih _).trans (List.suffix_cons b t)

theorem TrimSpace_contiguous (s : GoString) : TrimSpace s <:+: s := by
  have h1 : TrimLeftSpace s <:+ s := trimAux_suffix _ _ _
  have h2 : TrimSpace s <+: TrimLeftSpace s := by
    have h := trimAux_suffix (spaceSeqs.map List.reverse) 0 (TrimLeftSpace s).reverse
    have h3 := List.reverse_prefix.2 h
    rw [List.reverse_reverse] at h3
    exact h3
  exact h2.isInfix.trans h1.isInfix

theorem SplitLines_ne_nil (s : GoString) : SplitLines s ≠ [] := by
  induction s with
  | nil => simp [SplitLines]
  | cons b t ih =>
    rw [SplitLines]
    split
    · simp
    · cases h : SplitLines t with
      | nil => exact absurd h ih
      | cons l ls => simp

theorem SplitLines_append_newline (a rest : GoString) (ha : (0x0A : UInt8) ∉ a) :
    SplitLines (a ++ 0x0A :: rest) = a :: SplitLines rest := by
  induction a with
  | nil => simp [SplitLines]
  | cons b t ih =>
    have hb : b ≠ 0x0A := fun h => ha (by simp [h])
    have ht : (0x0A : UInt8) ∉ t := fun h => ha (List.mem_cons_of_mem _ h)
    rw [List.cons_append, SplitLines, if_neg hb, ih ht]

theorem not_mem_of_mem_SplitLines (s l : GoString) (h : l ∈ SplitLines s) :
    (0x0A : UInt8) ∉ l := by
  induction s generalizing l with
  | nil =>
    simp [SplitLines] at h
    simp [h]
  | cons b t ih =>
    rw [SplitLines] at h
    split at h
    · rcases List.mem_cons.1 h with h | h
      · simp [h]
      · exact ih l h
    · rename_i hb
      cases hs : SplitLines t with
      | nil => exact absurd hs (SplitLines_ne_nil t)
      | cons l0 ls =>
        rw [hs] at h
        rcases List.mem_cons.1 h with h | h
        · have h0 := ih l0 (by simp [hs])
          subst h
          intro hm
          rcases List.mem_cons.1 hm with hm | hm
          · exact hb hm.symm
          · exact h0 hm
        · exact ih l (by simp [hs, h])

theorem digitChar_byte (d : Nat) (h : d < 10) :
    (Nat.digitChar d).toNat.toUInt8 = (48 + d).toUInt8 := by
  interval_cases d <;> decide

theorem toDigitsCore_digits (fuel n : Nat) (ds : List Char) (hn : 0 < n) (hf : n < fuel) :
    Nat.toDigitsCore 10 fuel n ds = ((Nat.digits 10 n).reverse.map Nat.digitChar) ++ ds := by
  induction fuel generalizing n ds with
  | zero => omega
  | succ fuel ih =>
    rw [Nat.toDigitsCore, Nat.digits_def' (by norm_num) hn]
    by_cases h0 : n / 10 = 0
    · simp [h0]
    · have hpos : 0 < n / 10 := Nat.pos_of_ne_zero h0
      have hlt : n / 10 < fuel := by omega
      simp only [h0, if_false]
      rw [ih (n / 10) _ hpos hlt]
      simp

theorem fmtD_ofNat (n : Nat) (hn : 0 < n) :
    fmtD (Int.ofNat n) = (Nat.digits 10 n).reverse.map fun d => (48 + d).toUInt8 := by
  have hmem : ∀ d ∈ (Nat.digits 10 n).reverse, d < 10 := fun d hd =>
    Nat.digits_lt_base (by norm_num) (List.mem_reverse.1 hd)
  simp only [fmtD, Nat.toDigits, toDigitsCore_digits (n + 1) n [] hn (Nat.lt_succ_self n),
    List.append_nil, List.map_map]
  apply List.map_congr_left
  intro d hd
  exact digitChar_byte d (hmem d hd)

theorem fmtD_negSucc (n : Nat) :
    fmtD (Int.negSucc n) = 0x2D :: (Nat.digits 10 (n + 1)).reverse.map fun d => (48 + d).toUInt8 := by
  have h := fmtD_ofNat (n + 1) (Nat.succ_pos n)
  simp only [fmtD] at h ⊢
  rw [h]

theorem intercalate_cons_flatten (sep x : GoString) (xs : List GoString) :
    List.intercalate sep (x :: xs) = x ++ (xs.map fun y => sep ++ y).flatten := by
  induction xs generalizing x with
  | nil => simp [List.intercalate]
  | cons y ys ih =>
    have h := ih y
    simp only [List.intercalate, List.intersperse, List.flatten_cons, List.map_cons] at h ⊢
    rw [h]
    simp [List.append_assoc]

/-! ### The status formatter -/

theorem classify_pair (a b : UInt8) :
    classify [a, b] =
      if a = 0x3F ∧ b = 0x3F then some (utf8 "➕", utf8 "新增")
      else if (a = 0x4D ∧ b = 0x20) ∨ (a = 0x20 ∧ b = 0x4D) then some (utf8 "📝", utf8 "修改")
      else if (a = 0x44 ∧ b = 0x20) ∨ (a = 0x20 ∧ b = 0x44) then some (utf8 "➖", utf8 "删除")
      else if a = 0x41 ∧ b = 0x20 then some (utf8 "➕", utf8 "新增")
      else none := by
  have e1 : utf8 "??" = [0x3F, 0x3F] := by decide
  have e2 : utf8 "M " = [0x4D, 0x20] := by decide
  have e3 : utf8 " M" = [0x20, 0x4D] := by decide
  have e4 : utf8 "D " = [0x44, 0x20] := by decide
  have e5 : utf8 " D" = [0x20, 0x44] := by decide
  have e6 : utf8 "A " = [0x41, 0x20] := by decide
  simp only [classify, e1, e2, e3, e4, e5, e6, Contains_pair, Bool.and_eq_true, beq_iff_eq]
  by_cases h1 : a = 0x3F ∧ b = 0x3F
  · simp [h1]
  · by_cases h2 : a = 0x4D ∧ b = 0x20
    · simp [h1, h2]
    · by_cases h3 : a = 0x20 ∧ b = 0x4D
      · simp [h1, h2, h3]
      · by_cases h4 : a = 0x44 ∧ b = 0x20
        · simp [h1, h2, h3, h4]
        · simp [h1, h2, h3, h4]

theorem classify_no_newline (status icon statusStr : GoString)
    (h : classify status = some (icon, statusStr)) :
    (0x0A : UInt8) ∉ icon ++ utf8 " " ++ statusStr ++ utf8 " " := by
  unfold classify at h
  split_ifs at h <;> simp only [Option.some.injEq, Prod.mk.injEq] at h <;>
    (obtain ⟨rfl, rfl⟩ := h; decide)

theorem statusStep_line (result path : GoString) (a b sep : UInt8) :
    statusStep result (a :: b :: sep :: path) =
      match classify [a, b] with
      | none => result
      | some (icon, statusStr) =>
        result ++ (icon ++ utf8 " " ++ statusStr ++ utf8 " " ++ path ++ utf8 "\n") := by
  simp [statusStep]

theorem statusStep_recognised (result line : GoString) (h : recognised line = true) :
    statusStep result line = result ++ itemOf line := by
  simp only [recognised, Bool.and_eq_true, decide_eq_true_eq] at h
  obtain ⟨hlen, hc⟩ := h
  have hlt : ¬ line.length < 3 := by omega
  cases hcl : classify (line.take 2) with
  | none => simp [hcl] at hc
  | some p => simp [statusStep, itemOf, hlt, hcl]

theorem statusStep_skipped (result line : GoString) (h : recognised line = false) :
    statusStep result line = result := by
  simp only [recognised, Bool.and_eq_false_iff, decide_eq_false_iff_not] at h
  rcases h with h | h
  · have hlt : line.length < 3 := by omega
    simp [statusStep, hlt]
  · cases hcl : classify (line.take 2) with
    | none => simp [statusStep, hcl]
    | some p => simp [hcl] at h

theorem foldl_statusStep (lines : List GoString) (result : GoString) :
    lines.foldl statusStep result
      = result ++ ((lines.filter recognised).map itemOf).flatten := by
  induction lines generalizing result with
  | nil => simp
  | cons l ls ih =>
    rw [List.foldl_cons, ih]
    cases h : recognised l
    · simp [statusStep_skipped _ _ h, h]
    · simp [statusStep_recognised _ _ h, h, List.append_assoc]

theorem formatStatus_itemized (raw : GoString) (h : TrimSpace raw ≠ []) :
    formatStatus raw =
      { Text := statusHeader ++ (((SplitLines (TrimSpace raw)).filter recognised).map itemOf).flatten,
        Out := statusHeader ++ (((SplitLines (TrimSpace raw)).filter recognised).map itemOf).flatten,
        Err := none } := by
  simp [formatStatus, h, foldl_statusStep, statusHeader]

theorem formatStatus_trim_nil (raw : GoString) (h : TrimSpace raw = []) :
    formatStatus raw = cleanResult := by
  simp [formatStatus, h, cleanResult]

theorem statusHeader_eq : statusHeader = utf8 "📊 变更导图：" ++ 0x0A :: 0x0A :: [] := by
  decide

theorem itemOf_eq (line : GoString) (h : recognised line = true) :
    itemOf line = itemText line ++ 0x0A :: [] := by
  simp only [recognised, Bool.and_eq_true] at h
  cases hc : classify (line.take 2) with
  | none => simp [hc] at h
  | some p => simp [itemOf, itemText, hc, utf8_newline]

theorem itemText_no_newline (line : GoString) (hl : (0x0A : UInt8) ∉ line) :
    (0x0A : UInt8) ∉ itemText line := by
  unfold itemText
  cases hc : classify (line.take 2) with
  | none => simp
  | some p =>
    obtain ⟨icon, statusStr⟩ := p
    have h1 := classify_no_newline _ _ _ hc
    have h2 : (0x0A : UInt8) ∉ line.drop 3 := fun h => hl (List.mem_of_mem_drop h)
    intro h
    rcases List.mem_append.1 h with h | h
    · exact h1 h
    · exact h2 h

theorem SplitLines_items (ls : List GoString)
    (h : ∀ l ∈ ls, recognised l = true ∧ (0x0A : UInt8) ∉ l) :
    SplitLines ((ls.map itemOf).flatten) = ls.map itemText ++ [[]] := by
  induction ls with
  | nil => simp [SplitLines]
  | cons l ls ih =>
    have hl := h l (List.mem_cons_self _ _)
    have ht := ih fun x hx => h x (List.mem_cons_of_mem _ hx)
    rw [List.map_cons, List.flatten_cons, itemOf_eq l hl.1, List.append_assoc,
      List.cons_append, List.nil_append,
      SplitLines_append_newline _ _ (itemText_no_newline l hl.2), ht]
    simp

/-- Whenever the formatter itemizes, the text it parses is a contiguous part of
the raw output, and its text is the header followed by the items of the
recognised lines of the trimmed output, in their order; cut at the newlines,
the text is the header line, an empty line, then these items. -/
theorem formatStatus_parsed_lines (raw : GoString) (h : TrimSpace raw ≠ []) :
    TrimSpace raw <:+: raw
      ∧ (formatStatus raw).Text
        = statusHeader ++ (((SplitLines (TrimSpace raw)).filter recognised).map itemOf).flatten
      ∧ (formatStatus raw).Out = (formatStatus raw).Text
      ∧ SplitLines (formatStatus raw).Text
        = utf8 "📊 变更导图：" :: [] ::
            (((SplitLines (TrimSpace raw)).filter recognised).map itemText ++ [[]]) := by
  have hfmt := formatStatus_itemized raw h
  refine ⟨TrimSpace_contiguous raw, by rw [hfmt], by rw [hfmt], ?_⟩
  rw [hfmt]
  simp only
  rw [statusHeader_eq, List.append_assoc, List.cons_append, List.cons_append,
    List.nil_append, SplitLines_append_newline _ _ (by decide), SplitLines, if_pos rfl,
    SplitLines_items]
  intro l hl
  rw [List.mem_filter] at hl
  exact ⟨hl.2, not_mem_of_mem_SplitLines _ _ hl.1⟩

/-- When the trimmed output is not empty and none of its lines is recognised,
the text and the status field are the bare header. -/
theorem formatStatus_parsed_none (raw : GoString) (h : TrimSpace raw ≠ [])
    (hno : ∀ line ∈ SplitLines (TrimSpace raw),
      line.length < 3 ∨ classify (line.take 2) = none) :
    (formatStatus raw).Text = utf8 "📊 变更导图：\n\n"
      ∧ (formatStatus raw).Out = utf8 "📊 变更导图：\n\n"
      ∧ formatStatus raw ≠ cleanResult := by
  have hnil : (SplitLines (TrimSpace raw)).filter recognised = [] := by
    rw [List.filter_eq_nil_iff]
    intro l hl
    rcases hno l hl with h3 | hc
    · have : ¬ 3 ≤ l.length := by omega
      simp [recognised, this]
    · simp [recognised, hc]
  have hfmt := formatStatus_itemized raw h
  rw [hnil] at hfmt
  rw [hfmt]
  refine ⟨by simp [statusHeader], by simp [statusHeader], ?_⟩
  simp only [List.map_nil, List.flatten_nil, List.append_nil]
  decide

theorem GitStatus_formatStatus {σ : Type} (stat : σ → GoString → Option FileInfo)
    (join : GoString → GoString → GoString) (run : Executor σ) (w : σ) (param : PathParam)
    (hrepo : isGitRepo (stat w) join (workDir param.Path) = true)
    (hok : (run w { Dir := workDir param.Path, Name := utf8 "git",
                    Args := [utf8 "status", utf8 "--porcelain"] }).1.Err = none) :
    (GitStatus stat join run w param).1
      = formatStatus (run w { Dir := workDir param.Path, Name := utf8 "git",
                              Args := [utf8 "status", utf8 "--porcelain"] }).1.Stdout := by
  simp only [workDir] at hrepo hok
  simp only [GitStatus, hrepo, hok]
  rfl

/-! ### The commit message builder and the executor -/

theorem writeDetails_succ (i : Nat) (ds : List GoString) (details : GoString) :
    writeDetails (i + 1) ds details
      = details ++ (ds.map fun d => utf8 "\n" ++ (utf8 "- " ++ d)).flatten := by
  induction ds generalizing i details with
  | nil => simp [writeDetails]
  | cons d ds ih =>
    rw [writeDetails, ih]
    simp [List.append_assoc]

theorem writeDetails_zero (ds : List GoString) : writeDetails 0 ds [] = bulletBlock ds := by
  cases ds with
  | nil => simp [writeDetails, bulletBlock, List.intercalate]
  | cons d ds =>
    rw [writeDetails, writeDetails_succ, bulletBlock, List.map_cons, intercalate_cons_flatten]
    simp [List.map_map, Function.comp_def]

theorem findType_catalog : ∀ t ∈ CommitTypes, findType t.Name CommitTypes = some t := by
  decide

theorem findType_none (k : GoString) (ts : List CommitType) (h : ∀ t ∈ ts, t.Name ≠ k) :
    findType k ts = none := by
  induction ts with
  | nil => rfl
  | cons t ts ih =>
    rw [findType, if_neg (h t (List.mem_cons_self _ _))]
    exact ih fun x hx => h x (List.mem_cons_of_mem _ hx)

theorem GitCommit_traced_fst {σ : Type} (run : Executor σ) (w : σ) (log : List Cmd)
    (param : GitCommitParam) :
    (GitCommit (traced run) (w, log) param).1 = (GitCommit run w param).1 := by
  simp only [GitCommit, traced]
  cases h1 : (run w { Dir := if param.Path = [] then utf8 "." else param.Path,
                      Name := utf8 "git", Args := [utf8 "add", utf8 "."] }).1.Err with
  | some e => simp
  | none =>
    simp only
    split <;> split <;> simp_all

/-! ### The claims of the specification -/

/-- C1. On the raw output `" M file.txt\n"` the only line with 3 bytes or more
is `" M file.txt"`, with code `" M"` and path `"file.txt"`; the item the loop
body would emit for that line carries `file.txt`, but the formatter, which
trims the whole output before it cuts it into lines, emits the path
`ile.txt`. -/
theorem formatStatus_leading_space_path :
    SplitLines (utf8 " M file.txt\n") = [utf8 " M file.txt", []]
      ∧ (utf8 " M file.txt").take 2 = utf8 " M"
      ∧ (utf8 " M file.txt").drop 3 = utf8 "file.txt"
      ∧ statusStep statusHeader (utf8 " M file.txt") = utf8 "📊 变更导图：\n\n📝 修改 file.txt\n"
      ∧ (formatStatus (utf8 " M file.txt\n")).Text = utf8 "📊 变更导图：\n\n📝 修改 ile.txt\n" := by
  decide

/-- C2. The switch has no case for the codes `MM`, `AM`, `MD`, `AD`, `AA` and
`DD`: lines with these codes are skipped, and an output made of such lines
gives the bare header. -/
theorem classify_combined_codes :
    (∀ code ∈ [utf8 "MM", utf8 "AM", utf8 "MD", utf8 "AD", utf8 "AA", utf8 "DD"],
        classify code = none)
      ∧ (formatStatus (utf8 "MM a.go\nAM b.go\nMD c.go\nAD d.go\nAA e.go\nDD f.go\n")).Text
        = utf8 "📊 变更导图：\n\n" := by
  decide

/-- C3. For every entry of the catalog, with keyword `k` and symbol `e`, every
short description `s` and every list of details `d`, the message built by
`GenerateCommitMessage` is `e ++ " " ++ k ++ ": " ++ s ++ "\n\n详细描述：\n" ++ B`,
where `B` is the details each behind `"- "` and joined by single newlines (the
empty string for no details); so the message starts with `e ++ " " ++ k ++ ": "
++ s`; and the handler returns no error. -/
theorem GenerateCommitMessage_catalog (t : CommitType) (ht : t ∈ CommitTypes)
    (s : GoString) (d : List GoString) :
    (GenerateCommitMessage { CommitType := t.Name, ShortDesc := s, Details := d }).Out
        = t.Emoji ++ utf8 " " ++ t.Name ++ utf8 ": " ++ s ++ utf8 "\n\n详细描述：\n"
          ++ List.intercalate (utf8 "\n") (d.map fun x => utf8 "- " ++ x)
      ∧ (t.Emoji ++ utf8 " " ++ t.Name ++ utf8 ": " ++ s) <+:
          (GenerateCommitMessage { CommitType := t.Name, ShortDesc := s, Details := d }).Out
      ∧ (GenerateCommitMessage { CommitType := t.Name, ShortDesc := s, Details := [] }).Out
        = t.Emoji ++ utf8 " " ++ t.Name ++ utf8 ": " ++ s ++ utf8 "\n\n详细描述：\n"
      ∧ (GenerateCommitMessage { CommitType := t.Name, ShortDesc := s, Details := d }).Err
        = none := by
  have hf := findType_catalog t ht
  have hd := writeDetails_zero d
  unfold bulletBlock at hd
  refine ⟨?_, ?_, ?_, rfl⟩
  · simp only [GenerateCommitMessage, hf, hd]
  · simp only [GenerateCommitMessage, hf]
    exact ⟨utf8 "\n\n详细描述：\n" ++ writeDetails 0 d [], by simp [List.append_assoc]⟩
  · simp [GenerateCommitMessage, hf, writeDetails]

theorem GenerateCommitMessage_catalog_witness :
    ({ Emoji := utf8 "🐛", Name := utf8 "fix", Desc := utf8 "修复 Bug" } : CommitType) ∈ CommitTypes
      ∧ (GenerateCommitMessage
            { CommitType := utf8 "fix", ShortDesc := utf8 "adjust",
              Details := [utf8 "one", utf8 "two"] }).Out
        = utf8 "🐛 fix: adjust\n\n详细描述：\n- one\n- two" :=
  ⟨by decide,
   (GenerateCommitMessage_catalog { Emoji := utf8 "🐛", Name := utf8 "fix", Desc := utf8 "修复 Bug" }
      (by decide) (utf8 "adjust") [utf8 "one", utf8 "two"]).1.trans (by decide)⟩

/-- C4. For every type keyword that is not equal, byte for byte, to the keyword
of an entry of the catalog, `GenerateCommitMessage` returns no error and its
whole result is the one it gives for the keyword `feat` with the same short
description and details: the message opens with the symbol and keyword of the
first entry of the catalog, `✨ feat`. -/
theorem GenerateCommitMessage_fallback (k s : GoString) (d : List GoString)
    (hk : ∀ t ∈ CommitTypes, t.Name ≠ k) :
    GenerateCommitMessage { CommitType := k, ShortDesc := s, Details := d }
        = GenerateCommitMessage { CommitType := utf8 "feat", ShortDesc := s, Details := d }
      ∧ (GenerateCommitMessage { CommitType := k, ShortDesc := s, Details := d }).Out
        = utf8 "✨" ++ utf8 " " ++ utf8 "feat" ++ utf8 ": " ++ s ++ utf8 "\n\n详细描述：\n"
          ++ List.intercalate (utf8 "\n") (d.map fun x => utf8 "- " ++ x)
      ∧ (GenerateCommitMessage { CommitType := k, ShortDesc := s, Details := d }).Err = none
      ∧ CommitTypes.head? = some { Emoji := utf8 "✨", Name := utf8 "feat", Desc := utf8 "新增功能" } := by
  have hf := findType_none k CommitTypes hk
  have hfeat : findType (utf8 "feat") CommitTypes = some (CommitTypes.get ⟨0, by decide⟩) := by
    decide
  have hd := writeDetails_zero d
  unfold bulletBlock at hd
  refine ⟨?_, ?_, rfl, by decide⟩
  · simp only [GenerateCommitMessage, hf, hfeat]
  · simp only [GenerateCommitMessage, hf, hd]
    rfl

theorem GenerateCommitMessage_fallback_witness :
    (∀ t ∈ CommitTypes, t.Name ≠ utf8 "Fix")
      ∧ (∀ t ∈ CommitTypes, t.Name ≠ utf8 "FEAT")
      ∧ (∀ t ∈ CommitTypes, t.Name ≠ utf8 "")
      ∧ (GenerateCommitMessage
            { CommitType := utf8 "Fix", ShortDesc := utf8 "adjust", Details := [utf8 "one"] }).Out
        = utf8 "✨ feat: adjust\n\n详细描述：\n- one"
      ∧ GenerateCommitMessage { CommitType := utf8 "FEAT", ShortDesc := utf8 "x", Details := [] }
        = GenerateCommitMessage { CommitType := utf8 "feat", ShortDesc := utf8 "x", Details := [] }
      ∧ GenerateCommitMessage { CommitType := utf8 "", ShortDesc := utf8 "x", Details := [] }
        = GenerateCommitMessage { CommitType := utf8 "feat", ShortDesc := utf8 "x", Details := [] } :=
  ⟨by decide, by decide, by decide,
   (GenerateCommitMessage_fallback (utf8 "Fix") (utf8 "adjust") [utf8 "one"] (by decide)).2.1.trans
     (by decide),
   (GenerateCommitMessage_fallback (utf8 "FEAT") (utf8 "x") [] (by decide)).1,
   (GenerateCommitMessage_fallback (utf8 "") (utf8 "x") [] (by decide)).1⟩

/-- C5. A line with code `" D"` or `" M"` that stands first in the output
loses its first byte to the trimming of the output: it is emitted under the
right label but with the first byte of its path cut off, while the same line
in second position is emitted with its whole path. -/
theorem formatStatus_first_line_code :
    (formatStatus (utf8 " D old.txt\n?? new.txt\n")).Text
        = utf8 "📊 变更导图：\n\n➖ 删除 ld.txt\n➕ 新增 new.txt\n"
      ∧ (formatStatus (utf8 "?? new.txt\n D old.txt\n")).Text
        = utf8 "📊 变更导图：\n\n➕ 新增 new.txt\n➖ 删除 old.txt\n"
      ∧ (formatStatus (utf8 " M main.go\n")).Text = utf8 "📊 变更导图：\n\n📝 修改 ain.go\n" := by
  decide

/-- C6. A raw status output made only of ASCII white space (spaces, tabs,
newlines, also carriage returns, vertical tabs and form feeds; the empty
output included) gives the clean result, whose text does not start with the
header of the itemized block; and for every raw output the formatter gives the
clean result when the trimmed output is empty, and a text that starts with the
header exactly when the trimmed output is not empty. -/
theorem formatStatus_whitespace_clean (raw : GoString) :
    ((∀ b ∈ raw, asciiSpace b = true) →
        formatStatus raw = cleanResult ∧ ¬ statusHeader <+: (formatStatus raw).Text)
      ∧ (TrimSpace raw = [] → formatStatus raw = cleanResult)
      ∧ (statusHeader <+: (formatStatus raw).Text ↔ TrimSpace raw ≠ []) := by
  have hclean : ¬ statusHeader <+: cleanResult.Text := by decide
  refine ⟨fun h => ?_, formatStatus_trim_nil raw, ?_⟩
  · rw [formatStatus_trim_nil raw (TrimSpace_asciiSpace raw h)]
    exact ⟨rfl, hclean⟩
  · constructor
    · intro hp ht
      rw [formatStatus_trim_nil raw ht] at hp
      exact hclean hp
    · intro ht
      rw [formatStatus_itemized raw ht]
      exact List.prefix_append _ _

theorem formatStatus_whitespace_clean_witness :
    (∀ b ∈ utf8 " \n\t \n", asciiSpace b = true)
      ∧ formatStatus (utf8 " \n\t \n")
        = { Text := utf8 "✅ 工作区干净，没有变更", Out := utf8 "Clean", Err := none }
      ∧ formatStatus (utf8 "") = cleanResult :=
  ⟨by decide,
   ((formatStatus_whitespace_clean (utf8 " \n\t \n")).1 (by decide)).1,
   ((formatStatus_whitespace_clean (utf8 "")).1 (by decide)).1⟩

/-- C7. On the raw output `" A n.txt\n?? z.txt\n"` the input has one line
whose code is recognised, `?? z.txt` (the code `" A"` of the first line has no
case in the switch), but the formatter emits two items: the trimming of the
whole output turns the first line into `A n.txt`, with code `"A "`, and the
extra item `➕ 新增 .txt` stands before the item of the recognised line. -/
theorem formatStatus_extra_item :
    (SplitLines (utf8 " A n.txt\n?? z.txt\n")).filter recognised = [utf8 "?? z.txt"]
      ∧ classify ((utf8 " A n.txt").take 2) = none
      ∧ (formatStatus (utf8 " A n.txt\n?? z.txt\n")).Text
        = utf8 "📊 变更导图：\n\n➕ 新增 .txt\n➕ 新增 z.txt\n"
      ∧ (formatStatus (utf8 " A n.txt\n?? z.txt\n")).Text
        ≠ statusHeader
          ++ (((SplitLines (utf8 " A n.txt\n?? z.txt\n")).filter recognised).map itemOf).flatten
      ∧ (formatStatus (utf8 "?? z.txt\n A n.txt\n")).Text
        = utf8 "📊 变更导图：\n\n➕ 新增 z.txt\n" := by
  decide

/-- C8. Run over any executor that records the commands it is asked to run:
when the `git add .` step reports an error, `git_commit` returns the result
`Failed` with the text `❌ git add 失败: ` followed by the output captured from
the add step, and the only command run is `git add .`, so no `git commit` is
run; when the add step reports no error, the commands run are `git add .` and
then `git commit -m <message>`, both in the same working directory (the path,
or `.` for an empty path); recording the commands does not change the result. -/
theorem GitCommit_add_failure {σ : Type} (run : Executor σ) (w : σ) (param : GitCommitParam) :
    ((run w (addCmd param)).1.Err ≠ none →
        (GitCommit run w param).1
            = { Text := utf8 "❌ git add 失败: " ++ (run w (addCmd param)).1.Combined,
                Out := utf8 "Failed", Err := none }
          ∧ (GitCommit (traced run) (w, []) param).2.2 = [addCmd param]
          ∧ ∀ c ∈ (GitCommit (traced run) (w, []) param).2.2,
              c.Args.head? ≠ some (utf8 "commit"))
      ∧ ((run w (addCmd param)).1.Err = none →
          (GitCommit (traced run) (w, []) param).2.2 = [addCmd param, commitCmd param])
      ∧ (addCmd param).Dir = (commitCmd param).Dir
      ∧ (commitCmd param).Args = [utf8 "commit", utf8 "-m", param.Message]
      ∧ (GitCommit (traced run) (w, []) param).1 = (GitCommit run w param).1 := by
  refine ⟨fun h => ?_, fun h => ?_, rfl, rfl, GitCommit_traced_fst run w [] param⟩
  · cases h1 : (run w (addCmd param)).1.Err with
    | none => exact absurd h1 h
    | some e =>
      simp only [addCmd, workDir] at h1
      refine ⟨?_, ?_, ?_⟩
      · simp only [GitCommit, h1, addCmd, workDir]
      · simp only [GitCommit, traced, h1, addCmd, workDir, List.nil_append]
      · simp only [GitCommit, traced, h1, List.nil_append]
        intro c hc
        rw [List.mem_singleton] at hc
        subst hc
        have hne : utf8 "add" ≠ utf8 "commit" := by decide
        simpa using hne
  · simp only [addCmd, workDir] at h
    simp only [GitCommit, traced, h, addCmd, commitCmd, workDir, List.nil_append]
    split <;> simp

theorem GitCommit_add_failure_witness :
    (failingRun () (addCmd { Message := utf8 "fix: adjust", Path := utf8 "/tmp" })).1.Err ≠ none
      ∧ (GitCommit failingRun () { Message := utf8 "fix: adjust", Path := utf8 "/tmp" }).1
        = { Text := utf8 "❌ git add 失败: fatal: not a git repository\n",
            Out := utf8 "Failed", Err := none }
      ∧ (GitCommit (traced failingRun) ((), []) { Message := utf8 "fix: adjust", Path := utf8 "/tmp" }).2.2
        = [{ Dir := utf8 "/tmp", Name := utf8 "git", Args := [utf8 "add", utf8 "."] }] :=
  ⟨by decide,
   ((GitCommit_add_failure failingRun () { Message := utf8 "fix: adjust", Path := utf8 "/tmp" }).1
      (by decide)).1.trans (by decide),
   ((GitCommit_add_failure failingRun () { Message := utf8 "fix: adjust", Path := utf8 "/tmp" }).1
      (by decide)).2.1.trans (by decide)⟩

/-- C9. Run over any executor that records the commands it is asked to run:
without a count, `git_log` runs exactly `git log --oneline -n 10` in the
working directory, and when the command reports no error its text (and its log
field) is `📜 最近 10 条提交：`, an empty line, then the standard output of the
command as it is, whatever that output holds; with a count `c`, the argument
after `-n` and the number in the header are both the decimal form of `c`:
`0` for zero, for a positive `c` its base-10 digits from the most significant
one, each as the ASCII byte `48 + d`, and for a negative `c` a minus sign
followed by the digits of `-c`. -/
theorem GitLog_count {σ : Type} (run : Executor σ) (w : σ) (path : GoString) (c : Int) :
    (GitLog (traced run) (w, []) { Count := none, Path := path }).2.2
        = [logCmd path (utf8 "10")]
      ∧ ((run w (logCmd path (utf8 "10"))).1.Err = none →
          (GitLog run w { Count := none, Path := path }).1
            = { Text := utf8 "📜 最近 10 条提交：\n\n" ++ (run w (logCmd path (utf8 "10"))).1.Stdout,
                Out := utf8 "📜 最近 10 条提交：\n\n" ++ (run w (logCmd path (utf8 "10"))).1.Stdout,
                Err := none })
      ∧ (GitLog (traced run) (w, []) { Count := some c, Path := path }).2.2
        = [logCmd path (fmtD c)]
      ∧ ((run w (logCmd path (fmtD c))).1.Err = none →
          (GitLog run w { Count := some c, Path := path }).1
            = { Text := utf8 "📜 最近 " ++ fmtD c ++ utf8 " 条提交：\n\n"
                  ++ (run w (logCmd path (fmtD c))).1.Stdout,
                Out := utf8 "📜 最近 " ++ fmtD c ++ utf8 " 条提交：\n\n"
                  ++ (run w (logCmd path (fmtD c))).1.Stdout,
                Err := none })
      ∧ (c = 0 → fmtD c = utf8 "0")
      ∧ (0 < c → fmtD c = (Nat.digits 10 c.toNat).reverse.map fun d => (48 + d).toUInt8)
      ∧ (c < 0 →
          fmtD c = 0x2D :: (Nat.digits 10 (-c).toNat).reverse.map fun d => (48 + d).toUInt8) := by
  have hlabel : utf8 "📜 最近 " ++ utf8 "10" ++ utf8 " 条提交：\n\n" = utf8 "📜 最近 10 条提交：\n\n" := by
    decide
  refine ⟨?_, fun h => ?_, ?_, fun h => ?_, fun h => ?_, fun h => ?_, fun h => ?_⟩
  · simp only [GitLog, traced, logCmd, workDir, List.nil_append]
    split <;> rfl
  · simp only [logCmd, workDir] at h
    simp only [GitLog, h, logCmd, workDir, hlabel]
  · simp only [GitLog, traced, logCmd, workDir, List.nil_append]
    split <;> rfl
  · simp only [logCmd, workDir] at h
    simp only [GitLog, h, logCmd, workDir]
  · subst h
    decide
  · obtain ⟨n, rfl⟩ := Int.eq_ofNat_of_zero_le (le_of_lt h)
    have hn : 0 < n := by exact_mod_cast h
    simpa using fmtD_ofNat n hn
  · obtain ⟨n, rfl⟩ := Int.eq_negSucc_of_lt_zero h
    rw [show (-Int.negSucc n).toNat = n + 1 from rfl]
    exact fmtD_negSucc n

theorem GitLog_count_witness :
    (threeCommits () (logCmd [] (utf8 "10"))).1.Err = none
      ∧ (GitLog threeCommits () { Count := none, Path := [] }).1.Text
        = utf8 "📜 最近 10 条提交：\n\nc3c3c3c third\nb2b2b2b second\na1a1a1a first\n"
      ∧ (GitLog (traced threeCommits) ((), []) { Count := some 3, Path := [] }).2.2
        = [{ Dir := utf8 ".", Name := utf8 "git",
             Args := [utf8 "log", utf8 "--oneline", utf8 "-n", utf8 "3"] }]
      ∧ (GitLog (traced threeCommits) ((), []) { Count := some 250, Path := utf8 "/srv" }).2.2
        = [{ Dir := utf8 "/srv", Name := utf8 "git",
             Args := [utf8 "log", utf8 "--oneline", utf8 "-n", utf8 "250"] }]
      ∧ (GitLog threeCommits () { Count := some 250, Path := [] }).1.Text
        = utf8 "📜 最近 250 条提交：\n\nc3c3c3c third\nb2b2b2b second\na1a1a1a first\n"
      ∧ fmtD 250 = [0x32, 0x35, 0x30]
      ∧ fmtD (-17) = [0x2D, 0x31, 0x37]
      ∧ fmtD 0 = [0x30] :=
  ⟨by decide,
   (congrArg ToolResult.Text ((GitLog_count threeCommits () [] 3).2.1 (by decide))).trans
     (by decide),
   (GitLog_count threeCommits () [] 3).2.2.1.trans (by decide),
   (GitLog_count threeCommits () (utf8 "/srv") 250).2.2.1.trans (by decide),
   (congrArg ToolResult.Text ((GitLog_count threeCommits () [] 250).2.2.2.1 (by decide))).trans
     (by decide),
   ((GitLog_count threeCommits () [] 250).2.2.2.2.2.1 (by decide)).trans
     (by rw [show Int.toNat 250 = 250 from rfl]; norm_num; decide),
   ((GitLog_count threeCommits () [] (-17)).2.2.2.2.2.2 (by decide)).trans
     (by rw [show Int.toNat (- -17) = 17 from rfl]; norm_num; decide),
   ((GitLog_count threeCommits () [] 0).2.2.2.2.1 rfl).trans (by decide)⟩

/-- C10. On the raw output `" A new.txt\n"` the trimmed form is not empty and
no line of the output is recognised (the only line of 3 bytes or more has the
code `" A"`, which has no case in the switch), but the formatter does not
return the bare header: the trimming of the whole output turns the line into
`A new.txt`, with code `"A "`, and the item `➕ 新增 ew.txt` is emitted. -/
theorem formatStatus_unrecognised_item :
    TrimSpace (utf8 " A new.txt\n") ≠ []
      ∧ (∀ line ∈ SplitLines (utf8 " A new.txt\n"),
          line.length < 3 ∨ classify (line.take 2) = none)
      ∧ (formatStatus (utf8 " A new.txt\n")).Text = utf8 "📊 变更导图：\n\n➕ 新增 ew.txt\n"
      ∧ (formatStatus (utf8 " A new.txt\n")).Out = utf8 "📊 变更导图：\n\n➕ 新增 ew.txt\n"
      ∧ (formatStatus (utf8 " A new.txt\n")).Text ≠ utf8 "📊 变更导图：\n\n"
      ∧ (formatStatus (utf8 "R  a -> b\n A new.txt\n")).Text = utf8 "📊 变更导图：\n\n" := by
  decide

end GitCommitMcp
